import Mathlib

/-!
Verification of the toki-pona-encoding codec: a shallow embedding of the
dictionary structures (src/dict.rs), the dictionary set and byte codec
(src/dict_set.rs), and the streaming encoder/decoder (src/encoding.rs).
Rust `&str` values are modelled as `List Char`; fallible operations
(Rust panics / `expect` / `todo!()`) are modelled as `Option`/`Except`.
-/

deriving instance DecidableEq for Except

namespace TPE

/-- Spelling data, modelling Rust string slices as character lists. -/
abbrev Word := List Char

/-- Rust `str::split(sep)`: splits at every separator character, keeping
empty pieces, and yields at least one piece even for the empty string. -/
def splitOnChar (sep : Char) : List Char → List (List Char)
  | [] => [[]]
  | c :: cs =>
    let r := splitOnChar sep cs
    if c = sep then [] :: r
    else
      match r with
      | [] => [[c]]
      | x :: xs => (c :: x) :: xs

/-- Helper for `rustLines`: every piece except the final one was terminated
by a newline, so a trailing carriage return is stripped from it; a final
empty piece (text ended with a newline) produces no line. -/
def linesGo : List (List Char) → List (List Char)
  | [] => []
  | [final] => if final = [] then [] else [final]
  | p :: ps =>
    (if p.getLast? = some '\r' then p.dropLast else p) :: linesGo ps

/-- Rust `str::lines`: split at `\n` (also consuming a preceding `\r`),
with the final line terminator optional. -/
def rustLines (text : List Char) : List (List Char) :=
  linesGo (splitOnChar '\n' text)

/-- src/variation.rs `Variation`: the orthographic systems. -/
inductive Variation where
  | Default
  | Tipunsin
  | Hanzi
  deriving DecidableEq

instance : Inhabited Variation := ⟨Variation.Default⟩

/-- src/variation.rs `TryFrom<&str> for Variation`:
converts variation codes such as "tp_ZH". -/
def Variation.tryFrom (value : Word) : Option Variation :=
  if value = "tp".toList then some Variation.Default
  else if value = "tp_S".toList then some Variation.Tipunsin
  else if value = "tp_ZH".toList then some Variation.Hanzi
  else none

/-- src/dict.rs `DefaultDictionary`: the table of base-orthography words
plus its reverse lookup map (modelled as the insertion-ordered entry list). -/
structure DefaultDictionary where
  words : List Word
  lookup : List (Word × Nat)
  deriving DecidableEq

/-- src/dict.rs `VariationDictionary`: per its own documentation, `words`
should hold `None` at positions where the variation lacks a spelling. -/
structure VariationDictionary where
  words : List (Option Word)
  lookup : List (Word × Nat)
  deriving DecidableEq

/-- src/dict.rs `Dictionary`: base table plus one variant table per
orthography tag. -/
structure Dictionary where
  default : DefaultDictionary
  variations : List (Variation × VariationDictionary)
  deriving DecidableEq

/-- `HashMap::get` over the insertion-ordered entry-list model of a word
lookup map: the last matching insert wins, as `HashMap::insert` overwrites. -/
def hmGet (m : List (Word × Nat)) (k : Word) : Option Nat :=
  m.foldl (fun acc p => if p.1 = k then some p.2 else acc) none

/-- `HashMap::get` for the orthography-tag-to-variant-table map. -/
def vmGet (m : List (Variation × VariationDictionary)) (k : Variation) :
    Option VariationDictionary :=
  m.foldl (fun acc p => if p.1 = k then some p.2 else acc) none

/-- src/dict.rs `Dictionary::from_csv`, inner loop over one row's remaining
cells zipped against the variant tables: a non-empty cell is appended to that
variant's `words` and `lookup`; an empty cell changes nothing (in particular,
no `None` placeholder is appended). -/
def zipUpdate : List Word → Nat → List VariationDictionary → List VariationDictionary
  | [], _, vs => vs
  | _ :: _, _, [] => []
  | c :: cs, i, v :: vs =>
    (if c = [] then v
     else ⟨v.words ++ [some c], v.lookup ++ [(c, i)]⟩) :: zipUpdate cs i vs

/-- src/dict.rs `Dictionary::from_csv`, body of the row loop: the first cell
is the base word (recorded at the row index), the rest update the variant
tables via `zipUpdate`. -/
def pushRow (acc : DefaultDictionary × List VariationDictionary)
    (row : Nat × List Char) : DefaultDictionary × List VariationDictionary :=
  match splitOnChar ',' row.2 with
  | [] => acc
  | word :: rest =>
    (⟨acc.1.words ++ [word], acc.1.lookup ++ [(word, row.1)]⟩,
     zipUpdate rest row.1 acc.2)

/-- src/dict.rs `Dictionary::from_csv`. `none` models the source's fatal
conditions: no header line, a first header other than "tp", or an
unrecognized variation name. -/
def Dictionary.from_csv (text : List Char) : Option Dictionary :=
  match rustLines text with
  | [] => none
  | header :: rows =>
    match splitOnChar ',' header with
    | [] => none
    | h0 :: hrest =>
      if h0 = "tp".toList then
        match hrest.mapM Variation.tryFrom with
        | some names =>
          let r := rows.enum.foldl pushRow
            (⟨[], []⟩, List.replicate names.length ⟨[], []⟩)
          some ⟨r.1, names.zip r.2⟩
        | none => none
      else none

/-- src/dict_set.rs `DictionarySet`. -/
structure DictionarySet where
  base_dictionaries : List Dictionary
  deriving DecidableEq

/-- src/dict_set.rs `WordIdentifier`. -/
structure WordIdentifier where
  dict : Nat
  word : Nat
  deriving DecidableEq

/-- src/dict_set.rs `DictionarySet::get_identifier`, loop body: walk the
dictionaries in list order, returning the first base-table hit. -/
def getIdentifierGo (word : Word) : List Dictionary → Nat → Option WordIdentifier
  | [], _ => none
  | d :: ds, i =>
    match hmGet d.default.lookup word with
    | some r => some ⟨i, r⟩
    | none => getIdentifierGo word ds (i + 1)

/-- src/dict_set.rs `DictionarySet::get_identifier`. -/
def get_identifier (s : DictionarySet) (word : Word) : Option WordIdentifier :=
  getIdentifierGo word s.base_dictionaries 0

/-- src/dict_set.rs `DictionarySet::get_identifier_variation`, loop body:
walk the dictionaries in list order; a dictionary lacking the requested
variation, or whose variant table lacks the word, is skipped. -/
def getIdentifierVariationGo (word : Word) (variation : Variation) :
    List Dictionary → Nat → Option WordIdentifier
  | [], _ => none
  | d :: ds, i =>
    match vmGet d.variations variation with
    | some vd =>
      match hmGet vd.lookup word with
      | some r => some ⟨i, r⟩
      | none => getIdentifierVariationGo word variation ds (i + 1)
    | none => getIdentifierVariationGo word variation ds (i + 1)

/-- src/dict_set.rs `DictionarySet::get_identifier_variation`. -/
def get_identifier_variation (s : DictionarySet) (word : Word)
    (variation : Variation) : Option WordIdentifier :=
  if variation = Variation.Default then get_identifier s word
  else
    match getIdentifierVariationGo word variation s.base_dictionaries 0 with
    | some r => some r
    | none => get_identifier s word

/-- src/dict_set.rs `DictionarySet::get_word_variation`. `none` models the
source's panics: an out-of-range dictionary index, indexing
`variations[&variation]` when the key is missing, and indexing
`words[identifier.word]` out of bounds. -/
def get_word_variation (s : DictionarySet) (identifier : WordIdentifier)
    (variation : Variation) : Option Word :=
  match s.base_dictionaries.get? identifier.dict with
  | none => none
  | some d =>
    if variation = Variation.Default then d.default.words.get? identifier.word
    else
      match vmGet d.variations variation with
      | none => none
      | some vd =>
        match vd.words.get? identifier.word with
        | none => none
        | some none => d.default.words.get? identifier.word
        | some (some w) => some w

/-- Rust `u8::try_from(n)` on a `usize`: succeeds exactly when the value
fits in a byte. -/
def u8TryFrom (n : Nat) : Option Nat :=
  if n ≤ 255 then some n else none

/-- Rust `u8 + u8` with overflow checking (the overflow-is-a-panic debug
semantics; an overflowing sum is a fatal condition, not a wrap). -/
def u8Add (a b : Nat) : Option Nat :=
  if a + b ≤ 255 then some (a + b) else none

/-- The global index of §3 of the design: the word counts of all preceding
dictionaries, plus the position inside the owning dictionary. -/
def globalIndex (s : DictionarySet) (w : WordIdentifier) : Nat :=
  ((s.base_dictionaries.take w.dict).map
    (fun d => d.default.words.length)).sum + w.word

/-- The combined word count of all dictionaries in the set. -/
def totalWords (s : DictionarySet) : Nat :=
  (s.base_dictionaries.map (fun d => d.default.words.length)).sum

/-- src/dict_set.rs `DictionarySet::word_to_bytes`. `none` models the fatal
conditions: `u8::try_from(...).expect("index too large")`, overflow of the
`0x22 + _` byte addition, and the `todo!()` multi-byte branch. -/
def word_to_bytes (s : DictionarySet) (w : WordIdentifier) : Option (List Nat) :=
  if w.dict < s.base_dictionaries.length then
    (u8TryFrom (((s.base_dictionaries.take w.dict).map
        (fun d => d.default.words.length)).sum + w.word)).bind
      (fun b => (u8Add 0x22 b).bind (fun b2 => some [b2]))
  else none

/-- src/dict_set.rs `DictionarySet::word_from_bytes`, the subtracting walk
of the `while index >= len` loop; `none` models the panic of indexing
`base_dictionaries[dict_index]` once the list is exhausted. -/
def wordFromBytesGo : List Dictionary → Nat → Nat → Option WordIdentifier
  | [], _, _ => none
  | d :: ds, index, dictIndex =>
    if index < d.default.words.length then some ⟨dictIndex, index⟩
    else wordFromBytesGo ds (index - d.default.words.length) (dictIndex + 1)

/-- src/dict_set.rs `DictionarySet::word_from_bytes`. The single byte is
used directly as the starting index (no base offset is subtracted here; the
caller `Decoder::read_byte` performs the subtraction). `none` models the
panic in the walk and the `todo!()` multi-byte branch. -/
def word_from_bytes (s : DictionarySet) (bytes : List Nat) : Option WordIdentifier :=
  match bytes with
  | [b] => wordFromBytesGo s.base_dictionaries b 0
  | _ => none

/-- src/encoding.rs `Instruction`. -/
inductive Instruction where
  | TokiPonaWord (word : WordIdentifier)
  | AttachToPrevious
  deriving DecidableEq

/-- src/encoding.rs `Instruction::encode`; `none` models a panic inside
`word_to_bytes`. -/
def Instruction.encode (s : DictionarySet) : Instruction → Option (List Nat)
  | Instruction.TokiPonaWord w => word_to_bytes s w
  | Instruction.AttachToPrevious => some [0x21]

/-- src/encoding.rs `EncodingState`. -/
structure EncodingState where
  variation : Variation
  prepend_space : Bool
  deriving DecidableEq

/-- src/encoding.rs `Encoder`, with the output sink dropped: emitted bytes
are returned alongside the new state instead of being written to a writer. -/
structure Encoder where
  state : EncodingState
  unencoded : List Char
  deriving DecidableEq

/-- src/encoding.rs `Encoder::new`. -/
def Encoder.new : Encoder := ⟨⟨Variation.Default, false⟩, []⟩

/-- Errors of the encode path (§7): `UnknownWord` models the
`panic!("encoding failed ...")`, `UnsupportedRange` the fatal conditions
inside `word_to_bytes`. -/
inductive EncodeError where
  | UnknownWord
  | UnsupportedRange
  deriving DecidableEq

/-- src/encoding.rs `Encoder::encode`, the peek-and-consume prologue: when a
separator is owed, a leading space is consumed silently; otherwise the whole
buffer is kept and a manual attach is flagged. Returns
(manually_attach_to_previous, remaining buffer). -/
def flushSplit (e : Encoder) : Bool × List Char :=
  if e.state.prepend_space then
    match e.unencoded with
    | [] => (true, [])
    | c :: rest => if c = ' ' then (false, rest) else (true, c :: rest)
  else (false, e.unencoded)

/-- src/encoding.rs `Encoder::encode` (the flush): resolve the buffer, emit
`AttachToPrevious` first when the owed separator was missing, then the word
instruction. The first component is the bytes written to the sink: on the
unknown-word panic nothing has been written; on a `word_to_bytes` panic the
attach byte (if any) was already written. -/
def Encoder.encode (s : DictionarySet) (e : Encoder) :
    List Nat × Except EncodeError Encoder :=
  let split := flushSplit e
  match get_identifier_variation s split.2 e.state.variation with
  | some w =>
    let pre := if split.1 then [0x21] else []
    match Instruction.encode s (Instruction.TokiPonaWord w) with
    | some bs => (pre ++ bs, Except.ok ⟨⟨e.state.variation, true⟩, []⟩)
    | none => (pre, Except.error EncodeError.UnsupportedRange)
  | none => ([], Except.error EncodeError.UnknownWord)

/-- src/encoding.rs `Encoder::write_character`: flush first when the
character is a space or the buffer already holds at least 16 characters,
then append the character. -/
def Encoder.write_character (s : DictionarySet) (e : Encoder) (c : Char) :
    List Nat × Except EncodeError Encoder :=
  if c = ' ' ∨ 16 ≤ e.unencoded.length then
    match Encoder.encode s e with
    | (out, Except.ok e2) => (out, Except.ok ⟨e2.state, e2.unencoded ++ [c]⟩)
    | (out, Except.error err) => (out, Except.error err)
  else ([], Except.ok ⟨e.state, e.unencoded ++ [c]⟩)

/-- src/encoding.rs `Encoder::write_text`: feed the characters in order,
stopping at the first fatal condition (a panic ends the run). -/
def writeTextGo (s : DictionarySet) (e : Encoder) :
    List Char → List Nat × Except EncodeError Encoder
  | [] => ([], Except.ok e)
  | c :: cs =>
    match Encoder.write_character s e c with
    | (out, Except.ok e2) =>
      let r := writeTextGo s e2 cs
      (out ++ r.1, r.2)
    | (out, Except.error err) => (out, Except.error err)

/-- A whole encode session: `Encoder::new`, `write_text`, then the final
flush performed by `impl Drop for Encoder`. Returns the bytes written to the
sink and the fatal condition, if one occurred. -/
def encodeText (s : DictionarySet) (text : List Char) :
    List Nat × Option EncodeError :=
  match writeTextGo s Encoder.new text with
  | (out, Except.ok e) =>
    match Encoder.encode s e with
    | (out2, Except.ok _) => (out ++ out2, none)
    | (out2, Except.error err) => (out ++ out2, some err)
  | (out, Except.error err) => (out, some err)

/-- src/encoding.rs `Decoder`, with the output sink modelled as the
accumulated character list. -/
structure Decoder where
  state : EncodingState
  output : List Char
  deriving DecidableEq

/-- src/encoding.rs `Decoder::new`. -/
def Decoder.new : Decoder := ⟨⟨Variation.Default, false⟩, []⟩

/-- Errors of the decode path (§7): `InvalidByte` models the
`panic!("unexpected byte ...")`; `WordOutOfRange` models the panics reached
through `word_from_bytes` and `get_word_variation`. -/
inductive DecodeError where
  | InvalidByte
  | WordOutOfRange
  deriving DecidableEq

/-- src/encoding.rs `Decoder::execute`: a word writes an owed separator
first, then its spelling in the active variation, and sets the owed flag;
`AttachToPrevious` clears the flag. `none` models a panic inside
`get_word_variation`. -/
def Decoder.execute (s : DictionarySet) (d : Decoder) :
    Instruction → Option Decoder
  | Instruction.TokiPonaWord w =>
    let out1 := if d.state.prepend_space then d.output ++ [' '] else d.output
    match get_word_variation s w d.state.variation with
    | some str => some ⟨⟨d.state.variation, true⟩, out1 ++ str⟩
    | none => none
  | Instruction.AttachToPrevious => some ⟨⟨d.state.variation, false⟩, d.output⟩

/-- src/encoding.rs `Decoder::read_byte`: `0x21` executes
`AttachToPrevious`; any byte at or above `0x22` is decoded as a word after
subtracting the `0x22` base offset; anything below `0x21` is the
`panic!("unexpected byte ...")`. -/
def Decoder.read_byte (s : DictionarySet) (d : Decoder) (byte : Nat) :
    Except DecodeError Decoder :=
  if byte = 0x21 then
    match Decoder.execute s d Instruction.AttachToPrevious with
    | some d2 => Except.ok d2
    | none => Except.error DecodeError.WordOutOfRange
  else if 0x22 ≤ byte then
    match word_from_bytes s [byte - 0x22] with
    | some w =>
      match Decoder.execute s d (Instruction.TokiPonaWord w) with
      | some d2 => Except.ok d2
      | none => Except.error DecodeError.WordOutOfRange
    | none => Except.error DecodeError.WordOutOfRange
  else Except.error DecodeError.InvalidByte

/-- src/encoding.rs `Decoder::read_bytes`: feed the bytes in order,
stopping at the first fatal condition. -/
def readBytesGo (s : DictionarySet) (d : Decoder) :
    List Nat → Except DecodeError Decoder
  | [] => Except.ok d
  | b :: bs =>
    match Decoder.read_byte s d b with
    | Except.ok d2 => readBytesGo s d2 bs
    | Except.error err => Except.error err

/-- A whole decode session from a fresh `Decoder`, returning the rendered
text. -/
def decodeBytes (s : DictionarySet) (bytes : List Nat) :
    Except DecodeError (List Char) :=
  match readBytesGo s Decoder.new bytes with
  | Except.ok d => Except.ok d.output
  | Except.error err => Except.error err

/-- Modelled from the spec: the dictionary data file src/dicts/pu.csv is not
part of the sources; this stands in for it using the spec's example
vocabulary, `{"mi": 0x22, "a": 0x23}` (§8), as a two-word base dictionary
with no variant columns. -/
def puCsv : List Char := "tp\nmi\na".toList

/-- The stand-in for the `PU` dictionary (src/dict.rs), built through
`Dictionary.from_csv` on `puCsv`. -/
def PU : Dictionary := (Dictionary.from_csv puCsv).getD ⟨⟨[], []⟩, []⟩

/-- The stand-in for `DICT_SET` (src/dict_set.rs): the singleton list
holding `PU`. -/
def DICT_SET : DictionarySet := ⟨[PU]⟩

/-- A sixteen-character word, sized exactly to the encoder's flush bound. -/
def longWord : List Char := "mimimimimimimimi".toList

/-- Modelled from the spec: a synthetic test dictionary (pu.csv being
absent) whose vocabulary is `{"mi", "mimimimimimimimi"}` — the spec's
canonical word plus a word of exactly 16 characters, the encoder's buffer
bound. -/
def demoCsv : List Char := "tp\nmi\n".toList ++ longWord

/-- The demonstration dictionary built from `demoCsv`. -/
def DEMO : Dictionary := (Dictionary.from_csv demoCsv).getD ⟨⟨[], []⟩, []⟩

/-- The demonstration dictionary set. -/
def DEMO_SET : DictionarySet := ⟨[DEMO]⟩

/-- A tabular source with an empty variant cell in its first row:
`tp,tp_S` header, then rows `a,` and `b,B`. -/
def bugCsv : List Char := "tp,tp_S\na,\nb,B".toList

/-- The dictionary built from `bugCsv`. -/
def BUG : Dictionary := (Dictionary.from_csv bugCsv).getD ⟨⟨[], []⟩, []⟩

/-- A dictionary set holding only `BUG`. -/
def BUG_SET : DictionarySet := ⟨[BUG]⟩

/-- `word_to_bytes` on an in-range dictionary index, written through the
global index: a single byte offset by `0x22` when that fits, else the fatal
`none`. -/
lemma word_to_bytes_eq (s : DictionarySet) (w : WordIdentifier)
    (h1 : w.dict < s.base_dictionaries.length) :
    word_to_bytes s w =
      if globalIndex s w + 0x22 ≤ 255 then some [globalIndex s w + 0x22]
      else none := by
  simp only [word_to_bytes, u8TryFrom, u8Add, if_pos h1, globalIndex]
  by_cases h3 : ((s.base_dictionaries.take w.dict).map
      (fun d => d.default.words.length)).sum + w.word ≤ 255
  · simp only [h3, if_true, Option.some_bind]
    by_cases h4 : 0x22 + (((s.base_dictionaries.take w.dict).map
        (fun d => d.default.words.length)).sum + w.word) ≤ 255
    · simp only [h4, if_true, Option.some_bind]
      rw [if_pos (by omega)]
      rw [Nat.add_comm]
    · simp only [h4, if_false, Option.none_bind]
      rw [if_neg (by omega)]
  · simp only [h3, if_false, Option.none_bind]
    rw [if_neg (by omega)]

lemma wordFromBytesGo_at :
    ∀ (dicts : List Dictionary) (k w base : Nat) (d : Dictionary),
      dicts.get? k = some d → w < d.default.words.length →
      wordFromBytesGo dicts
        (((dicts.take k).map (fun x => x.default.words.length)).sum + w) base
        = some ⟨base + k, w⟩ := by
  intro dicts
  induction dicts with
  | nil => intro k w base d hk _; simp at hk
  | cons d0 ds ih =>
    intro k w base d hk hw
    cases k with
    | zero =>
      simp only [List.get?] at hk
      injection hk with hk
      subst hk
      simp [wordFromBytesGo, hw]
    | succ k =>
      simp only [List.get?] at hk
      simp only [List.take, List.map, List.sum_cons, wordFromBytesGo]
      rw [if_neg (by omega)]
      have hsub : d0.default.words.length +
          ((ds.take k).map (fun x => x.default.words.length)).sum + w -
          d0.default.words.length =
          ((ds.take k).map (fun x => x.default.words.length)).sum + w := by
        omega
      rw [Nat.add_assoc, Nat.add_sub_cancel_left]
      rw [ih k w (base + 1) d hk hw]
      have hb : base + 1 + k = base + (k + 1) := by omega
      rw [hb]

lemma wordFromBytesGo_total :
    ∀ (dicts : List Dictionary) (n base : Nat),
      n < (dicts.map (fun d => d.default.words.length)).sum →
      ∃ k w d, dicts.get? k = some d ∧ w < d.default.words.length ∧
        ((dicts.take k).map (fun x => x.default.words.length)).sum + w = n ∧
        wordFromBytesGo dicts n base = some ⟨base + k, w⟩ := by
  intro dicts
  induction dicts with
  | nil => intro n base h; simp at h
  | cons d0 ds ih =>
    intro n base h
    by_cases h0 : n < d0.default.words.length
    · refine ⟨0, n, d0, rfl, h0, by simp, ?_⟩
      simp [wordFromBytesGo, h0]
    · simp only [List.map, List.sum_cons] at h
      obtain ⟨k, w, d, hk, hw, hsum, hgo⟩ :=
        ih (n - d0.default.words.length) (base + 1) (by omega)
      refine ⟨k + 1, w, d, hk, hw, ?_, ?_⟩
      · simp only [List.take, List.map, List.sum_cons]
        omega
      · simp only [wordFromBytesGo, if_neg h0]
        rw [hgo]
        have hb : base + 1 + k = base + (k + 1) := by omega
        rw [hb]

lemma flush_ok_empty (s : DictionarySet) (e : Encoder) (out : List Nat)
    (e2 : Encoder) (h : Encoder.encode s e = (out, Except.ok e2)) :
    e2.unencoded = [] := by
  simp only [Encoder.encode] at h
  split at h
  · split at h
    · simp only [Prod.mk.injEq, Except.ok.injEq] at h
      rw [← h.2]
    · simp at h
  · simp at h

/-- The spec's `resolve(spelling, orthography)` (§4.2), written from its
words: for the default orthography, search every dictionary's base table in
list order and return the first hit; otherwise search every dictionary's
variant table for that orthography in list order first and, if none match,
fall back to the same default-table search. -/
def resolveSpec (s : DictionarySet) (w : Word) (v : Variation) :
    Option WordIdentifier :=
  let baseHit := s.base_dictionaries.enum.findSome?
    (fun p => (hmGet p.2.default.lookup w).map
      (fun r => WordIdentifier.mk p.1 r))
  if v = Variation.Default then baseHit
  else
    match s.base_dictionaries.enum.findSome?
        (fun p => (vmGet p.2.variations v).bind
          (fun vd => (hmGet vd.lookup w).map
            (fun r => WordIdentifier.mk p.1 r))) with
    | some hit => some hit
    | none => baseHit

lemma getIdentifierGo_eq (word : Word) :
    ∀ (dicts : List Dictionary) (i : Nat),
      getIdentifierGo word dicts i = (List.enumFrom i dicts).findSome?
        (fun p => (hmGet p.2.default.lookup word).map
          (fun r => WordIdentifier.mk p.1 r)) := by
  intro dicts
  induction dicts with
  | nil => intro i; simp [getIdentifierGo]
  | cons d ds ih =>
    intro i
    simp only [getIdentifierGo, List.enumFrom_cons, List.findSome?_cons]
    cases h : hmGet d.default.lookup word with
    | some r => simp [h]
    | none => simp [h, ih]

lemma getIdentifierVariationGo_eq (word : Word) (v : Variation) :
    ∀ (dicts : List Dictionary) (i : Nat),
      getIdentifierVariationGo word v dicts i =
        (List.enumFrom i dicts).findSome?
          (fun p => (vmGet p.2.variations v).bind
            (fun vd => (hmGet vd.lookup word).map
              (fun r => WordIdentifier.mk p.1 r))) := by
  intro dicts
  induction dicts with
  | nil => intro i; simp [getIdentifierVariationGo]
  | cons d ds ih =>
    intro i
    simp only [getIdentifierVariationGo, List.enumFrom_cons,
      List.findSome?_cons]
    cases hv : vmGet d.variations v with
    | none => simp [hv, ih]
    | some vd =>
      cases h : hmGet vd.lookup word with
      | some r => simp [hv, h]
      | none => simp [hv, h, ih]

/-- C1 (counterexample): at the identifier (0,0), which is valid in the
dictionary set, `word_to_bytes` emits the byte 0x22, but feeding that byte
straight back to `word_from_bytes` does not return the identifier: no base
offset is subtracted inside `word_from_bytes`, so on the two-word set the
subtracting walk runs past the dictionary list and hits the
index-out-of-bounds panic instead. -/
theorem C1_direct_composition_fails :
    word_to_bytes DICT_SET ⟨0, 0⟩ = some [0x22] ∧
    word_from_bytes DICT_SET [0x22] = none ∧
    (word_to_bytes DICT_SET ⟨0, 0⟩).bind (word_from_bytes DICT_SET) ≠
      some ⟨0, 0⟩ := by decide

/-- C1 (amended): for every word identifier valid in the dictionary set
whose global index plus the 0x22 offset fits in a byte, `word_to_bytes`
emits the single byte global-index + 0x22, and `word_from_bytes` recovers
the identifier from that byte only after the 0x22 offset is subtracted —
exactly the subtraction `Decoder::read_byte` performs before calling it. -/
theorem C1_roundtrip_after_offset (s : DictionarySet) (id : WordIdentifier)
    (d : Dictionary) (hd : s.base_dictionaries.get? id.dict = some d)
    (hw : id.word < d.default.words.length)
    (hfit : globalIndex s id + 0x22 ≤ 255) :
    word_to_bytes s id = some [globalIndex s id + 0x22] ∧
    word_from_bytes s [globalIndex s id + 0x22 - 0x22] = some id := by
  have hlen : id.dict < s.base_dictionaries.length := by
    by_contra hc
    rw [List.get?_eq_none.mpr (by omega)] at hd
    cases hd
  constructor
  · rw [word_to_bytes_eq s id hlen, if_pos hfit]
  · have hsub : globalIndex s id + 0x22 - 0x22 = globalIndex s id := by omega
    rw [hsub]
    simp only [word_from_bytes, globalIndex]
    rw [wordFromBytesGo_at s.base_dictionaries id.dict id.word 0 d hd hw]
    rw [Nat.zero_add]

/-- C1 (witness): the amended round trip at the identifier (0,1) of the
concrete set. -/
theorem C1_roundtrip_after_offset_witness :
    word_to_bytes DICT_SET ⟨0, 1⟩ =
      some [globalIndex DICT_SET ⟨0, 1⟩ + 0x22] ∧
    word_from_bytes DICT_SET [globalIndex DICT_SET ⟨0, 1⟩ + 0x22 - 0x22] =
      some ⟨0, 1⟩ :=
  C1_roundtrip_after_offset DICT_SET ⟨0, 1⟩ PU (by decide) (by decide)
    (by decide)

/-- C4: `get_identifier_variation` agrees everywhere with the spec's
`resolve` contract: for a non-default orthography, the first variant-table
hit over the dictionaries in list order, else the first base-table hit in
list order, else nothing; for the default orthography, only the base-table
search. -/
theorem C4_resolve_matches_spec (s : DictionarySet) (w : Word)
    (v : Variation) :
    get_identifier_variation s w v = resolveSpec s w v := by
  have hbase : get_identifier s w = s.base_dictionaries.enum.findSome?
      (fun p => (hmGet p.2.default.lookup w).map
        (fun r => WordIdentifier.mk p.1 r)) := by
    simp only [get_identifier, getIdentifierGo_eq]
    rfl
  by_cases hv : v = Variation.Default
  · subst hv
    simp only [get_identifier_variation, resolveSpec, if_pos rfl]
    exact hbase
  · simp only [get_identifier_variation, resolveSpec, if_neg hv]
    rw [getIdentifierVariationGo_eq]
    have he : List.enumFrom 0 s.base_dictionaries =
        s.base_dictionaries.enum := rfl
    rw [he]
    cases hfs : s.base_dictionaries.enum.findSome?
        (fun p => (vmGet p.2.variations v).bind
          (fun vd => (hmGet vd.lookup w).map
            (fun r => WordIdentifier.mk p.1 r))) with
    | some hit => rfl
    | none => exact hbase

/-- C6: for an identifier naming a dictionary of the set, `word_to_bytes`
emits the single byte global-index + 0x22 exactly when that sum fits in a
byte, and otherwise is the fatal `none` (the failed `u8` conversion or the
overflowing byte addition), never a silently wrong byte. -/
theorem C6_single_byte_or_fatal (s : DictionarySet) (w : WordIdentifier)
    (h1 : w.dict < s.base_dictionaries.length) :
    (globalIndex s w + 0x22 ≤ 255 →
      word_to_bytes s w = some [globalIndex s w + 0x22]) ∧
    (255 < globalIndex s w + 0x22 → word_to_bytes s w = none) := by
  constructor
  · intro h2
    rw [word_to_bytes_eq s w h1, if_pos h2]
  · intro h2
    rw [word_to_bytes_eq s w h1, if_neg (by omega)]

/-- C6 (witness): the fitting case at the identifier (0,0) of the concrete
set. -/
theorem C6_single_byte_or_fatal_witness :
    word_to_bytes DICT_SET ⟨0, 0⟩ =
      some [globalIndex DICT_SET ⟨0, 0⟩ + 0x22] :=
  (C6_single_byte_or_fatal DICT_SET ⟨0, 0⟩ (by decide)).1 (by decide)

/-- C2 (code evaluated at the failing input): on the dictionary built from
the source `tp,tp_S` / `a,` / `b,B`, the identifier (0,0) under tp_S
yields the spelling "B" — row 1's variant, shifted into position 0 because
no `None` placeholder was stored for row 0's empty cell — instead of
falling back to the base spelling "a"; and the identifier (0,1) under tp_S
hits the fatal out-of-bounds `none` instead of returning the spelling "B"
recorded on that row. -/
theorem C2_variation_spelling_misaligned :
    get_word_variation BUG_SET ⟨0, 0⟩ Variation.Tipunsin = some ['B'] ∧
    get_word_variation BUG_SET ⟨0, 0⟩ Variation.Default = some ['a'] ∧
    get_word_variation BUG_SET ⟨0, 1⟩ Variation.Tipunsin = none ∧
    get_word_variation BUG_SET ⟨0, 1⟩ Variation.Default = some ['b'] := by
  decide

/-- C3 (code evaluated at the failing input): from the source `tp,tp_S` /
`a,` / `b,B`, the base table holds two words but the tp_S variant word
sequence is `[Some "B"]` — length one, with row 1's spelling sitting at
position 0 — because `from_csv` appends nothing for an empty variant cell
rather than the `None` the alignment invariant requires. -/
theorem C3_variant_table_misaligned :
    (Dictionary.from_csv bugCsv).map
        (fun d => (d.default.words.length,
          (vmGet d.variations Variation.Tipunsin).map
            (fun vd => vd.words))) =
      some (2, some [some ['B']]) := by decide

/-- C5 (counterexample): encoding the two known words "mi" and "mi" with
the separating space missing — the text "mimi" — emits no AttachToPrevious
and no word instruction at all: the whole four-character fragment is
resolved as one word at the final flush, matches nothing, and the run
fails with UnknownWord. -/
theorem C5_concatenated_known_words_fail :
    encodeText DICT_SET "mimi".toList =
      ([], some EncodeError.UnknownWord) := by decide

/-- C5 (amended): encoding "mi mi" emits no AttachToPrevious (bytes 0x22,
0x22). A missing separator produces AttachToPrevious only when the word
boundary coincides with a flush, as with the 16-character word W =
"mimimimimimimimi" written twice with no space: the 16-character buffer
bound flushes the first W, and the stream is W-byte, 0x21, W-byte —
exactly one AttachToPrevious, immediately before the second word's emit.
Decoding that stream inserts zero spaces at the boundary, whereas the same
two word bytes without the 0x21 decode with one inserted space. -/
theorem C5_attach_protocol_amended :
    encodeText DEMO_SET "mi mi".toList = ([0x22, 0x22], none) ∧
    encodeText DEMO_SET (longWord ++ longWord) =
      ([0x23, 0x21, 0x23], none) ∧
    decodeBytes DEMO_SET [0x23, 0x21, 0x23] =
      Except.ok (longWord ++ longWord) ∧
    decodeBytes DEMO_SET [0x23, 0x23] =
      Except.ok (longWord ++ [' '] ++ longWord) := by decide

/-- C7 (counterexample): byte 0x24 lies in 0x22–0xFF, yet on the two-word
set the decoder does not decode it to a word identifier: its index
0x24 − 0x22 = 2 is past the vocabulary, the subtracting walk in
`word_from_bytes` exhausts the dictionary list, and the step is the fatal
out-of-range panic, not `InvalidByte` and not a decoded word. -/
theorem C7_in_range_byte_fatal :
    Decoder.read_byte DICT_SET Decoder.new 0x24 =
      Except.error DecodeError.WordOutOfRange := by decide

/-- C7 (amended): per input byte, the decoder classifies as the claim says
for 0x00–0x20 (fatal InvalidByte) and 0x21 (clear the owed-separator flag,
write nothing); a byte in 0x22–0xFF decodes to the word identifier whose
global index is byte − 0x22 — writing a single space first exactly when a
separator is owed, then the spelling, then setting the owed flag — only
when that index is below the set's combined word count; beyond the
vocabulary the step is fatal. -/
theorem C7_byte_classification_amended (s : DictionarySet) (d : Decoder)
    (byte : Nat) (hb : byte ≤ 255) :
    (byte ≤ 0x20 → Decoder.read_byte s d byte =
      Except.error DecodeError.InvalidByte) ∧
    (byte = 0x21 → Decoder.read_byte s d byte =
      Except.ok ⟨⟨d.state.variation, false⟩, d.output⟩) ∧
    (0x22 ≤ byte → byte - 0x22 < totalWords s →
      d.state.variation = Variation.Default →
      ∃ id spelling,
        word_from_bytes s [byte - 0x22] = some id ∧
        globalIndex s id = byte - 0x22 ∧
        get_word_variation s id Variation.Default = some spelling ∧
        Decoder.read_byte s d byte = Except.ok
          ⟨⟨d.state.variation, true⟩,
           d.output ++ (if d.state.prepend_space then [' '] else []) ++
             spelling⟩) := by
  refine ⟨?_, ?_, ?_⟩
  · intro hlo
    simp only [Decoder.read_byte]
    rw [if_neg (by omega), if_neg (by omega)]
  · intro h21
    subst h21
    simp [Decoder.read_byte, Decoder.execute]
  · intro hge hlt hvar
    obtain ⟨k, w, dd, hk, hw, hsum, hgo⟩ :=
      wordFromBytesGo_total s.base_dictionaries (byte - 0x22) 0 hlt
    simp only [Nat.zero_add] at hgo
    have hwfb : word_from_bytes s [byte - 0x22] = some ⟨k, w⟩ := hgo
    cases hsp : dd.default.words.get? w with
    | none =>
      rw [List.get?_eq_none] at hsp
      omega
    | some sp =>
      have hgw : get_word_variation s ⟨k, w⟩ Variation.Default = some sp := by
        rw [List.get?_eq_getElem?] at hk hsp
        simp [get_word_variation, hk, hsp]
      refine ⟨⟨k, w⟩, sp, hwfb, hsum, hgw, ?_⟩
      simp only [Decoder.read_byte]
      rw [if_neg (by omega), if_pos hge, hwfb]
      simp only [Decoder.execute, hvar, hgw]
      by_cases hp : d.state.prepend_space
      · simp [hp]
      · simp [hp]

/-- C7 (witness): the 0x21 case of the amended classification at a fresh
decoder over the concrete set. -/
theorem C7_byte_classification_amended_witness :
    Decoder.read_byte DICT_SET Decoder.new 0x21 =
      Except.ok ⟨⟨Decoder.new.state.variation, false⟩, Decoder.new.output⟩ :=
  (C7_byte_classification_amended DICT_SET Decoder.new 0x21
    (by decide)).2.1 rfl

/-- C8: whenever the buffered fragment — after the optional consumption of
one leading owed space performed by the flush prologue — matches no
dictionary in the active orthography nor, through the fallback, in the
default, the flush is the fatal UnknownWord condition and writes no
instruction at all: neither an AttachToPrevious byte nor an emit-word
byte. -/
theorem C8_unknown_word_emits_nothing (s : DictionarySet) (e : Encoder)
    (h : get_identifier_variation s (flushSplit e).2 e.state.variation =
      none) :
    Encoder.encode s e = ([], Except.error EncodeError.UnknownWord) := by
  simp only [Encoder.encode, h]

/-- C8 (witness): flushing the unknown fragment "xx" on the concrete set. -/
theorem C8_unknown_word_emits_nothing_witness :
    Encoder.encode DICT_SET ⟨⟨Variation.Default, false⟩, ['x', 'x']⟩ =
      ([], Except.error EncodeError.UnknownWord) :=
  C8_unknown_word_emits_nothing DICT_SET
    ⟨⟨Variation.Default, false⟩, ['x', 'x']⟩ (by decide)

/-- C9: `write_character` flushes first exactly when the character is a
space or the buffer already holds 16 characters — when neither holds the
character is only appended, and when either holds any successful write
leaves precisely the new character in the buffer — so a buffer of at most
16 characters can never grow past 16; and a run of 17 non-space characters
(here the 16-character word followed by 'm') flushes the first 16
characters as their own word lookup at the 16-character boundary. -/
theorem C9_buffer_bound :
    (∀ (s : DictionarySet) (e : Encoder) (c : Char) (out : List Nat)
      (e2 : Encoder), e.unencoded.length ≤ 16 →
      Encoder.write_character s e c = (out, Except.ok e2) →
      e2.unencoded.length ≤ 16) ∧
    (∀ (s : DictionarySet) (e : Encoder) (c : Char),
      ¬(c = ' ' ∨ 16 ≤ e.unencoded.length) →
      Encoder.write_character s e c =
        ([], Except.ok ⟨e.state, e.unencoded ++ [c]⟩)) ∧
    (∀ (s : DictionarySet) (e : Encoder) (c : Char) (out : List Nat)
      (e2 : Encoder), (c = ' ' ∨ 16 ≤ e.unencoded.length) →
      Encoder.write_character s e c = (out, Except.ok e2) →
      e2.unencoded = [c]) ∧
    writeTextGo DEMO_SET Encoder.new (longWord ++ ['m']) =
      ([0x23], Except.ok ⟨⟨Variation.Default, true⟩, ['m']⟩) := by
  have hflush : ∀ (s : DictionarySet) (e : Encoder) (c : Char)
      (out : List Nat) (e2 : Encoder), (c = ' ' ∨ 16 ≤ e.unencoded.length) →
      Encoder.write_character s e c = (out, Except.ok e2) →
      e2.unencoded = [c] := by
    intro s e c out e2 hc h
    simp only [Encoder.write_character, if_pos hc] at h
    cases henc : Encoder.encode s e with
    | mk o r =>
      rw [henc] at h
      cases r with
      | ok e3 =>
        simp only [Prod.mk.injEq, Except.ok.injEq] at h
        have h3 : e3.unencoded = [] := flush_ok_empty s e o e3 henc
        rw [← h.2]
        simp [h3]
      | error err => simp at h
  refine ⟨?_, ?_, hflush, by decide⟩
  · intro s e c out e2 hlen h
    by_cases hc : c = ' ' ∨ 16 ≤ e.unencoded.length
    · rw [hflush s e c out e2 hc h]
      simp
    · simp only [Encoder.write_character, if_neg hc] at h
      simp only [Prod.mk.injEq, Except.ok.injEq] at h
      rw [← h.2]
      push_neg at hc
      simp only [List.length_append, List.length_cons, List.length_nil]
      omega
  · intro s e c hc
    simp only [Encoder.write_character, if_neg hc]

/-- C9 (witness): the no-flush case at a fresh encoder, and the preserved
bound at its result. -/
theorem C9_buffer_bound_witness :
    Encoder.write_character DICT_SET Encoder.new 'm' =
      ([], Except.ok ⟨⟨Variation.Default, false⟩, ['m']⟩) ∧
    (⟨⟨Variation.Default, false⟩, ['m']⟩ : Encoder).unencoded.length ≤ 16 :=
  ⟨C9_buffer_bound.2.1 DICT_SET Encoder.new 'm' (by decide),
   C9_buffer_bound.1 DICT_SET Encoder.new 'm' []
     ⟨⟨Variation.Default, false⟩, ['m']⟩ (by decide) (by decide)⟩

/-- C10: the drop-time flush is unconditional, and when the buffer is
empty — or holds only the owed separator space, which the prologue
consumes — it resolves the empty string; as long as the empty string is in
no dictionary, the flush fails with UnknownWord instead of being a no-op.
In particular an encoder that received no text, or text ending in a
trailing space, fails at finalization. -/
theorem C10_finalize_empty_fails (s : DictionarySet) (e : Encoder)
    (h : get_identifier_variation s [] e.state.variation = none) :
    (e.unencoded = [] →
      Encoder.encode s e = ([], Except.error EncodeError.UnknownWord)) ∧
    (e.unencoded = [' '] → e.state.prepend_space = true →
      Encoder.encode s e = ([], Except.error EncodeError.UnknownWord)) ∧
    encodeText DICT_SET "mi ".toList =
      ([0x22], some EncodeError.UnknownWord) := by
  refine ⟨?_, ?_, by decide⟩
  · intro he
    have hsplit : (flushSplit e).2 = [] := by
      by_cases hp : e.state.prepend_space <;> simp [flushSplit, he, hp]
    rw [← hsplit] at h
    simp only [Encoder.encode, h]
  · intro he hp
    have hsplit : (flushSplit e).2 = [] := by
      simp [flushSplit, he, hp]
    rw [← hsplit] at h
    simp only [Encoder.encode, h]

/-- C10 (witness): finalizing a fresh encoder that received no text fails
with UnknownWord. -/
theorem C10_finalize_empty_fails_witness :
    Encoder.encode DICT_SET Encoder.new =
      ([], Except.error EncodeError.UnknownWord) :=
  (C10_finalize_empty_fails DICT_SET Encoder.new (by decide)).1 rfl

end TPE
